import Mathlib

/-!
Verification of the H.264 RTP packetizer/depacketizer
(crates/rtp/src/codecs/h264/mod.rs).

Bytes are modelled as `Nat` (values < 256 where it matters), byte buffers
as `List Nat`.  The payloader side (`next_ind`, `emit`, `payload`) is pure
in the source and is embedded as pure functions.  The depacketizer mutates
an `H264Packet` value and can fail, which is embedded as a function from
the old state and the packet to a `DepackResult` carrying the new state;
the out-of-bounds index `packet[curr_offset + 1]` that the STAP-A loop can
perform is made observable as the `panicked` outcome.
-/

namespace H264

def STAPA_NALU_TYPE : Nat := 24
def FUA_NALU_TYPE : Nat := 28
def FUB_NALU_TYPE : Nat := 29

def FUA_HEADER_SIZE : Nat := 2
def STAPA_HEADER_SIZE : Nat := 1
def STAPA_NALU_LENGTH_SIZE : Nat := 2

def NALU_TYPE_BITMASK : Nat := 0x1F
def NALU_REF_IDC_BITMASK : Nat := 0x60
def FU_START_BITMASK : Nat := 0x80
def FU_END_BITMASK : Nat := 0x40

def ANNEXB_NALUSTART_CODE : List Nat := [0x00, 0x00, 0x00, 0x01]

/-- Scan of `next_ind`: walks the suffix of the buffer keeping the current
run of zero bytes; `i` is the absolute index of the head of the remaining
list.  Returns the absolute start of the start code and its length, as the
Rust function does with its `(isize, isize)` pair (`none` models `(-1, -1)`). -/
def nextIndAux : List Nat → Nat → Nat → Option (Nat × Nat)
  | [], _, _ => none
  | b :: rest, i, zero_count =>
    if b = 0 then nextIndAux rest (i + 1) (zero_count + 1)
    else if b = 1 ∧ 2 ≤ zero_count then some (i - zero_count, zero_count + 1)
    else nextIndAux rest (i + 1) 0

def next_ind (nalu : List Nat) (start : Nat) : Option (Nat × Nat) :=
  nextIndAux (nalu.drop start) start 0

/-- Fragmentation loop of `emit`.  `mfs` is `max_fragment_size`, `dlen` the
original `nalu_data_length`, `idx` the running `nalu_data_index` and `rem`
the running `nalu_data_remaining`.  The `mfs = 0` guard encodes the
caller's invariant (the loop is only entered with a positive
`max_fragment_size`). -/
def emitLoop (nalu : List Nat) (nalu_type nalu_ref_idc mfs dlen : Nat)
    (idx rem : Nat) : List (List Nat) :=
  if rem = 0 ∨ mfs = 0 then []
  else
    let cfs := min mfs rem
    let b0 := FUA_NALU_TYPE ||| nalu_ref_idc
    let b1 :=
      if rem = dlen then nalu_type ||| 128
      else if rem - cfs = 0 then nalu_type ||| 64
      else nalu_type
    (b0 :: b1 :: (nalu.drop idx).take cfs) ::
      emitLoop nalu nalu_type nalu_ref_idc mfs dlen (idx + cfs) (rem - cfs)
termination_by rem
decreasing_by omega

def emit (nalu : List Nat) (mtu : Nat) : List (List Nat) :=
  if nalu.isEmpty then []
  else
    let nalu_type := nalu.headD 0 &&& NALU_TYPE_BITMASK
    let nalu_ref_idc := nalu.headD 0 &&& NALU_REF_IDC_BITMASK
    if nalu_type = 9 ∨ nalu_type = 12 then []
    else if nalu.length ≤ mtu then [nalu]
    else
      let max_fragment_size : Int := (mtu : Int) - (FUA_HEADER_SIZE : Int)
      let nalu_data_length : Int := (nalu.length : Int) - 1
      if min max_fragment_size nalu_data_length ≤ 0 then []
      else
        emitLoop nalu nalu_type nalu_ref_idc (mtu - FUA_HEADER_SIZE)
          (nalu.length - 1) 1 (nalu.length - 1)

inductive Error where
  | ErrShortPacket : Error
  | StapASizeLargerThanBuffer : Nat → Nat → Error
  | NaluTypeIsNotHandled : Nat → Error
deriving DecidableEq, Repr

end H264

namespace H264

theorem nextIndAux_bounds : ∀ (l : List Nat) (i z s len : Nat), z ≤ i →
    nextIndAux l i z = some (s, len) →
    i - z ≤ s ∧ i < s + len ∧ s + len ≤ i + l.length ∧ 3 ≤ len := by
  intro l
  induction l with
  | nil => intro i z s len _ h; simp [nextIndAux] at h
  | cons b rest ih =>
    intro i z s len hz h
    rw [nextIndAux] at h
    by_cases hb : b = 0
    · simp only [hb, if_pos rfl] at h
      have := ih (i + 1) (z + 1) s len (by omega) h
      simp only [List.length_cons]
      omega
    · simp only [if_neg hb] at h
      by_cases hone : b = 1 ∧ 2 ≤ z
      · simp only [if_pos hone] at h
        injection h with h'
        injection h' with h1 h2
        subst h1; subst h2
        simp only [List.length_cons]
        omega
      · simp only [if_neg hone] at h
        have := ih (i + 1) 0 s len (by omega) h
        simp only [List.length_cons]
        omega

theorem next_ind_bounds {nalu : List Nat} {start s len : Nat}
    (h : next_ind nalu start = some (s, len)) :
    start ≤ s ∧ start < s + len ∧ s + len ≤ nalu.length ∧ 3 ≤ len := by
  have hb := nextIndAux_bounds (nalu.drop start) start 0 s len (Nat.zero_le _) h
  have hd : (nalu.drop start).length = nalu.length - start := List.length_drop start nalu
  constructor
  · omega
  constructor
  · omega
  constructor
  · omega
  · omega

/-- Loop of `H264Payloader::payload` once a first start code `(s, l)` has
been found; each round computes `prev_start`, finds the next start code and
emits the span between them (or the rest of the buffer if there is none). -/
def payloadLoop (p : List Nat) (mtu : Nat) (s l : Nat) : List (List Nat) :=
  match h : next_ind p (s + l) with
  | some (s2, l2) =>
    emit ((p.drop (s + l)).take (s2 - (s + l))) mtu ++ payloadLoop p mtu s2 l2
  | none => emit (p.drop (s + l)) mtu
termination_by p.length - (s + l)
decreasing_by
  have := next_ind_bounds h
  omega

def payload (mtu : Nat) (p : List Nat) : Except Error (List (List Nat)) :=
  if p.isEmpty ∨ mtu = 0 then .ok []
  else
    match next_ind p 0 with
    | none => .ok (emit p mtu)
    | some (s, l) => .ok (payloadLoop p mtu s l)

structure H264Packet where
  is_avc : Bool
  payload : List Nat
  fua_buffer : Option (List Nat)
deriving DecidableEq, Repr

/-- Big-endian bytes written by `put_u32` (truncating to 32 bits as the
`as u32` cast does). -/
def putU32 (n : Nat) : List Nat :=
  [(n >>> 24) % 256, (n >>> 16) % 256, (n >>> 8) % 256, n % 256]

inductive StapaOut where
  | panicked : StapaOut
  | errored : Error → StapaOut
  | done : List Nat → StapaOut
deriving DecidableEq, Repr

/-- STAP-A loop of `depacketize`.  While `curr_offset < packet.len()` the
Rust code indexes `packet[curr_offset]` and `packet[curr_offset + 1]`
unconditionally; an out-of-bounds second read is modelled as `panicked`. -/
def stapaLoop (is_avc : Bool) (packet : List Nat) (curr_offset : Nat)
    (acc : List Nat) : StapaOut :=
  if h : curr_offset < packet.length then
    match packet.get? curr_offset, packet.get? (curr_offset + 1) with
    | some hi, some lo =>
      let nalu_size := (hi <<< 8) ||| lo
      let off2 := curr_offset + STAPA_NALU_LENGTH_SIZE
      if packet.length < off2 + nalu_size then
        .errored (.StapASizeLargerThanBuffer nalu_size (packet.length - off2))
      else
        stapaLoop is_avc packet (off2 + nalu_size)
          (acc ++ (if is_avc then putU32 nalu_size else ANNEXB_NALUSTART_CODE)
            ++ (packet.drop off2).take nalu_size)
    | _, _ => .panicked
  else .done acc
termination_by packet.length - curr_offset
decreasing_by simp_wf; simp only [STAPA_NALU_LENGTH_SIZE]; omega

inductive DepackResult where
  | ok : H264Packet → DepackResult
  | err : Error → H264Packet → DepackResult
  | panicked : DepackResult
deriving DecidableEq, Repr

def depacketize (x : H264Packet) (packet : List Nat) : DepackResult :=
  if packet.length ≤ 2 then .err .ErrShortPacket x
  else
    let b0 := packet.headD 0
    let nalu_type := b0 &&& NALU_TYPE_BITMASK
    if 1 ≤ nalu_type ∧ nalu_type ≤ 23 then
      .ok { x with payload :=
        (if x.is_avc then putU32 packet.length else ANNEXB_NALUSTART_CODE)
          ++ packet }
    else if nalu_type = STAPA_NALU_TYPE then
      match stapaLoop x.is_avc packet STAPA_HEADER_SIZE [] with
      | .done out => .ok { x with payload := out }
      | .errored e => .err e x
      | .panicked => .panicked
    else if nalu_type = FUA_NALU_TYPE then
      if packet.length < FUA_HEADER_SIZE then .err .ErrShortPacket x
      else
        let buf := x.fua_buffer.getD [] ++ packet.drop FUA_HEADER_SIZE
        let b1 := packet.getD 1 0
        if b1 &&& FU_END_BITMASK ≠ 0 then
          let nalu_ref_idc := b0 &&& NALU_REF_IDC_BITMASK
          let fragmented_nalu_type := b1 &&& NALU_TYPE_BITMASK
          .ok { x with
            payload :=
              (if x.is_avc then putU32 (buf.length + 1) else ANNEXB_NALUSTART_CODE)
                ++ (nalu_ref_idc ||| fragmented_nalu_type) :: buf,
            fua_buffer := none }
        else
          .ok { x with payload := [], fua_buffer := some buf }
    else .err (.NaluTypeIsNotHandled nalu_type) x

def is_partition_head (packet : List Nat) : Bool :=
  if packet.length < 2 then false
  else if packet.headD 0 &&& NALU_TYPE_BITMASK = FUA_NALU_TYPE
      ∨ packet.headD 0 &&& NALU_TYPE_BITMASK = FUB_NALU_TYPE then
    packet.getD 1 0 &&& FU_START_BITMASK ≠ 0
  else true

/-- Feeding a list of transport payloads one after the other into a single
depacketizer, collecting after each successful call the `payload` the call
left on the instance; `none` if any call errors or panics. -/
def feedAll (x : H264Packet) : List (List Nat) → Option (List (List Nat) × H264Packet)
  | [] => some ([], x)
  | p :: ps =>
    match depacketize x p with
    | .ok x2 => (feedAll x2 ps).map (fun r => (x2.payload :: r.1, r.2))
    | _ => none

/-- Reconstructed FU-A payload built by the End-bit branch of `depacketize`:
prefix, rebuilt NAL header byte, accumulated fragment body. -/
def fuaFinal (avc : Bool) (t r : Nat) (body : List Nat) : List Nat :=
  (if avc then putU32 (body.length + 1) else ANNEXB_NALUSTART_CODE) ++ (r ||| t) :: body

/-- Aggregation unit of a well-formed STAP-A payload: 2-byte big-endian
length followed by the unit's bytes. -/
def stapaUnit (u : List Nat) : List Nat := u.length / 256 :: u.length % 256 :: u

/-- Well-formed STAP-A transport payload carrying the given NAL units. -/
def mkStapA (units : List (List Nat)) : List Nat :=
  STAPA_NALU_TYPE :: (units.map stapaUnit).flatten

end H264

namespace H264

theorem mask_and_idem (x m : Nat) : (x &&& m) &&& m = x &&& m := by
  rw [Nat.and_assoc, Nat.and_self]

theorem and31_le (x : Nat) : x &&& 31 ≤ 31 := Nat.and_le_right

theorem and96_le (x : Nat) : x &&& 96 ≤ 96 := Nat.and_le_right

theorem t31_and31 {t : Nat} (h : t ≤ 31) : t &&& 31 = t := by
  interval_cases t <;> decide

theorem t31_and64 {t : Nat} (h : t ≤ 31) : t &&& 64 = 0 := by
  interval_cases t <;> decide

theorem t31_and128 {t : Nat} (h : t ≤ 31) : t &&& 128 = 0 := by
  interval_cases t <;> decide

theorem t31_or64_and31 {t : Nat} (h : t ≤ 31) : (t ||| 64) &&& 31 = t := by
  interval_cases t <;> decide

theorem t31_or128_and31 {t : Nat} (h : t ≤ 31) : (t ||| 128) &&& 31 = t := by
  interval_cases t <;> decide

theorem t31_or64_and64 {t : Nat} (h : t ≤ 31) : (t ||| 64) &&& 64 = 64 := by
  interval_cases t <;> decide

theorem t31_or128_and64 {t : Nat} (h : t ≤ 31) : (t ||| 128) &&& 64 = 0 := by
  interval_cases t <;> decide

theorem t31_or64_and128 {t : Nat} (h : t ≤ 31) : (t ||| 64) &&& 128 = 0 := by
  interval_cases t <;> decide

theorem t31_or128_and128 {t : Nat} (h : t ≤ 31) : (t ||| 128) &&& 128 = 128 := by
  interval_cases t <;> decide

theorem fua_hdr_and31 {r : Nat} (hr : r ≤ 96) (h96 : r &&& 96 = r) :
    (28 ||| r) &&& 31 = 28 := by
  interval_cases r <;> revert h96 <;> decide

theorem fua_hdr_and96 {r : Nat} (hr : r ≤ 96) (h96 : r &&& 96 = r) :
    (28 ||| r) &&& 96 = r := by
  interval_cases r <;> revert h96 <;> decide

theorem emitLoop_nil (nalu : List Nat) (t r mfs dlen idx : Nat) :
    emitLoop nalu t r mfs dlen idx 0 = [] := by
  rw [emitLoop]; simp

theorem emitLoop_cons (nalu : List Nat) (t r mfs dlen idx rem : Nat)
    (hrem : rem ≠ 0) (hmfs : mfs ≠ 0) :
    emitLoop nalu t r mfs dlen idx rem =
      ((28 ||| r) ::
        (if rem = dlen then t ||| 128
         else if rem - min mfs rem = 0 then t ||| 64 else t) ::
        (nalu.drop idx).take (min mfs rem)) ::
      emitLoop nalu t r mfs dlen (idx + min mfs rem) (rem - min mfs rem) := by
  conv_lhs => rw [emitLoop]
  simp [hrem, hmfs, FUA_NALU_TYPE]

theorem emitLoop_length_pos (nalu : List Nat) (t r mfs dlen idx rem : Nat)
    (hrem : rem ≠ 0) (hmfs : mfs ≠ 0) :
    0 < (emitLoop nalu t r mfs dlen idx rem).length := by
  rw [emitLoop_cons nalu t r mfs dlen idx rem hrem hmfs]
  simp

theorem emitLoop_flatten_drop (nalu : List Nat) (t r mfs dlen : Nat) (hmfs : mfs ≠ 0) :
    ∀ n rem idx, rem ≤ n → idx + rem = nalu.length →
    ((emitLoop nalu t r mfs dlen idx rem).map (fun f => f.drop 2)).flatten
      = nalu.drop idx := by
  intro n
  induction n with
  | zero =>
    intro rem idx h1 h2
    have hr : rem = 0 := by omega
    have hd : nalu.drop idx = [] := List.drop_eq_nil_of_le (by omega)
    rw [hr, emitLoop_nil]
    simp [hd]
  | succ n ih =>
    intro rem idx h1 h2
    by_cases hr : rem = 0
    · have hd : nalu.drop idx = [] := List.drop_eq_nil_of_le (by omega)
      rw [hr, emitLoop_nil]
      simp [hd]
    · rw [emitLoop_cons nalu t r mfs dlen idx rem hr hmfs]
      have hcfs : 1 ≤ min mfs rem := by omega
      have hrec := ih (rem - min mfs rem) (idx + min mfs rem) (by omega) (by omega)
      have h3 : nalu.drop (idx + min mfs rem) = (nalu.drop idx).drop (min mfs rem) := by
        rw [List.drop_drop, Nat.add_comm]
      simp only [List.map_cons, List.flatten_cons, hrec, h3]
      simp [List.take_append_drop]

theorem emitLoop_b1_tail (nalu : List Nat) (t r mfs dlen : Nat) (hmfs : mfs ≠ 0) :
    ∀ n rem idx, rem ≤ n → rem ≠ 0 → rem < dlen →
    ∀ i, i < (emitLoop nalu t r mfs dlen idx rem).length →
    ((emitLoop nalu t r mfs dlen idx rem).getD i []).getD 1 0 =
      if i = (emitLoop nalu t r mfs dlen idx rem).length - 1 then t ||| 64 else t := by
  intro n
  induction n with
  | zero => intro rem idx h1 h2; omega
  | succ n ih =>
    intro rem idx h1 h2 hlt i hi
    rw [emitLoop_cons nalu t r mfs dlen idx rem h2 hmfs] at hi ⊢
    have hcfs : 1 ≤ min mfs rem := by omega
    by_cases hlast : rem - min mfs rem = 0
    · rw [hlast, emitLoop_nil] at hi ⊢
      simp only [List.length_cons, List.length_nil] at hi
      have hi0 : i = 0 := by omega
      subst hi0
      simp [Nat.ne_of_lt hlt, hlast]
    · have htail := emitLoop_length_pos nalu t r mfs dlen (idx + min mfs rem)
        (rem - min mfs rem) hlast hmfs
      match i with
      | 0 =>
        simp only [List.getD_cons_zero, List.getD_cons_succ, List.length_cons]
        simp [Nat.ne_of_lt hlt, hlast, Nat.ne_of_lt htail]
      | Nat.succ j =>
        simp only [List.getD_cons_succ, List.length_cons] at hi ⊢
        have hrec := ih (rem - min mfs rem) (idx + min mfs rem) (by omega) hlast
          (by omega) j (by omega)
        rw [hrec]
        by_cases hj : j = (emitLoop nalu t r mfs dlen (idx + min mfs rem)
            (rem - min mfs rem)).length - 1
        · rw [if_pos hj, if_pos (by omega)]
        · rw [if_neg hj, if_neg (by omega)]

theorem shiftl8_lor {a b : Nat} (hb : b < 256) : (a <<< 8) ||| b = a * 256 + b := by
  have h := Nat.mul_add_lt_is_or (show b < 2 ^ 8 by norm_num [hb]) a
  have h2 : a * 2 ^ 8 = 2 ^ 8 * a := Nat.mul_comm a (2 ^ 8)
  rw [Nat.shiftLeft_eq, h2, ← h]
  norm_num [Nat.mul_comm]

theorem emitLoop_mem_shape (nalu : List Nat) (t r mfs dlen : Nat) :
    ∀ n rem idx, rem ≤ n →
    ∀ f ∈ emitLoop nalu t r mfs dlen idx rem,
    ∃ b c, f = (28 ||| r) :: b :: c ∧ c.length ≤ mfs ∧
      (b = t ∨ b = t ||| 64 ∨ b = t ||| 128) := by
  intro n
  induction n with
  | zero =>
    intro rem idx h1 f hf
    have hr : rem = 0 := by omega
    rw [hr, emitLoop_nil] at hf
    simp at hf
  | succ n ih =>
    intro rem idx h1 f hf
    by_cases hr : rem = 0
    · rw [hr, emitLoop_nil] at hf; simp at hf
    · by_cases hm : mfs = 0
      · rw [emitLoop] at hf; simp [hm] at hf
      · rw [emitLoop_cons nalu t r mfs dlen idx rem hr hm] at hf
        rcases List.mem_cons.mp hf with hhead | htail
        · refine ⟨_, (nalu.drop idx).take (min mfs rem), hhead, ?_, ?_⟩
          · simp only [List.length_take]
            omega
          · by_cases he : rem = dlen
            · simp [he]
            · by_cases he2 : rem - min mfs rem = 0 <;> simp [he, he2]
        · exact ih (rem - min mfs rem) (idx + min mfs rem) (by omega) f htail

theorem depacketize_fua_frag (avc : Bool) (pl : List Nat) (fb : Option (List Nat))
    (r b1 : Nat) (c : List Nat) (hc : c ≠ []) (hr : r ≤ 96) (hr96 : r &&& 96 = r) :
    depacketize ⟨avc, pl, fb⟩ ((28 ||| r) :: b1 :: c) =
      if b1 &&& 64 ≠ 0 then
        .ok ⟨avc, fuaFinal avc (b1 &&& 31) r (fb.getD [] ++ c), none⟩
      else
        .ok ⟨avc, [], some (fb.getD [] ++ c)⟩ := by
  have hcpos : 0 < c.length := List.length_pos.mpr hc
  have ht28 : (28 ||| r) &&& 31 = 28 := fua_hdr_and31 hr hr96
  have ht96 : (28 ||| r) &&& 96 = r := fua_hdr_and96 hr hr96
  rw [depacketize]
  simp only [List.headD_cons, NALU_TYPE_BITMASK, NALU_REF_IDC_BITMASK,
    STAPA_NALU_TYPE, FUA_NALU_TYPE, FUA_HEADER_SIZE, FU_END_BITMASK,
    List.length_cons, ht28, ht96, List.getD_cons_succ, List.getD_cons_zero,
    List.drop_succ_cons, List.drop_zero]
  have hL : ¬(c.length + 1 + 1 ≤ 2) := by omega
  simp [hL, fuaFinal]

theorem feedAll_emitLoop_tail (nalu : List Nat) (t r mfs dlen : Nat) (avc : Bool)
    (hmfs : mfs ≠ 0) (ht : t ≤ 31) (hr : r ≤ 96) (hr96 : r &&& 96 = r) :
    ∀ n rem idx pl acc, rem ≤ n → rem ≠ 0 → rem < dlen → idx + rem = nalu.length →
    feedAll ⟨avc, pl, some acc⟩ (emitLoop nalu t r mfs dlen idx rem) =
      some (List.replicate ((emitLoop nalu t r mfs dlen idx rem).length - 1) [] ++
          [fuaFinal avc t r (acc ++ nalu.drop idx)],
        ⟨avc, fuaFinal avc t r (acc ++ nalu.drop idx), none⟩) := by
  intro n
  induction n with
  | zero => intro rem idx pl acc h1 h2; omega
  | succ n ih =>
    intro rem idx pl acc h1 h2 hlt hsum
    rw [emitLoop_cons nalu t r mfs dlen idx rem h2 hmfs]
    have hcfs : 1 ≤ min mfs rem := by omega
    have hdroplen : (nalu.drop idx).length = rem := by
      rw [List.length_drop]; omega
    have hcne : (nalu.drop idx).take (min mfs rem) ≠ [] := by
      have : ((nalu.drop idx).take (min mfs rem)).length = min mfs rem := by
        rw [List.length_take]; omega
      intro hnil
      rw [hnil] at this
      simp at this
      omega
    by_cases hlast : rem - min mfs rem = 0
    · have hminr : min mfs rem = rem := by omega
      have hctake : (nalu.drop idx).take (min mfs rem) = nalu.drop idx := by
        rw [hminr, ← hdroplen, List.take_length]
      have hdne : nalu.drop idx ≠ [] := by rw [← hctake]; exact hcne
      rw [if_neg (Nat.ne_of_lt hlt), if_pos hlast, hctake, hlast, emitLoop_nil]
      have hdep := depacketize_fua_frag avc pl (some acc) r (t ||| 64)
        (nalu.drop idx) hdne hr hr96
      rw [t31_or64_and64 ht, t31_or64_and31 ht] at hdep
      rw [if_pos (by norm_num)] at hdep
      simp only [Option.getD_some] at hdep
      simp [feedAll, hdep]
    · rw [if_neg (Nat.ne_of_lt hlt), if_neg hlast]
      have hdep := depacketize_fua_frag avc pl (some acc) r t
        ((nalu.drop idx).take (min mfs rem)) hcne hr hr96
      rw [t31_and64 ht] at hdep
      rw [if_neg (by norm_num)] at hdep
      simp only [Option.getD_some] at hdep
      have hrec := ih (rem - min mfs rem) (idx + min mfs rem) []
        (acc ++ (nalu.drop idx).take (min mfs rem)) (by omega) hlast
        (by omega) (by omega)
      have hglue : (acc ++ (nalu.drop idx).take (min mfs rem))
          ++ nalu.drop (idx + min mfs rem) = acc ++ nalu.drop idx := by
        rw [List.append_assoc]
        congr 1
        have h3 : nalu.drop (idx + min mfs rem)
            = (nalu.drop idx).drop (min mfs rem) := by
          rw [List.drop_drop, Nat.add_comm]
        rw [h3, List.take_append_drop]
      rw [hglue] at hrec
      have hn2 := emitLoop_length_pos nalu t r mfs dlen (idx + min mfs rem)
        (rem - min mfs rem) hlast hmfs
      have hrep : ([] : List Nat) ::
          (List.replicate ((emitLoop nalu t r mfs dlen (idx + min mfs rem)
            (rem - min mfs rem)).length - 1) [] ++
            [fuaFinal avc t r (acc ++ nalu.drop idx)]) =
          List.replicate ((emitLoop nalu t r mfs dlen (idx + min mfs rem)
            (rem - min mfs rem)).length) [] ++
            [fuaFinal avc t r (acc ++ nalu.drop idx)] := by
        conv_rhs => rw [show (emitLoop nalu t r mfs dlen (idx + min mfs rem)
          (rem - min mfs rem)).length
            = ((emitLoop nalu t r mfs dlen (idx + min mfs rem)
              (rem - min mfs rem)).length - 1) + 1 by omega]
        rw [List.replicate_succ]
        simp
      rw [feedAll, hdep]
      dsimp only
      rw [hrec]
      simp only [List.length_cons, Nat.add_sub_cancel, Option.map]
      rw [hrep]

theorem payload_no_start (mtu : Nat) (p : List Nat) (hne : p ≠ [])
    (hmtu : mtu ≠ 0) (hsc : next_ind p 0 = none) :
    payload mtu p = .ok (emit p mtu) := by
  rw [payload]
  have he : p.isEmpty = false := by
    cases p
    · exact absurd rfl hne
    · rfl
  simp [he, hmtu, hsc]

theorem emit_fragmented (u : List Nat) (mtu : Nat) (h3 : 3 ≤ mtu)
    (hlen : mtu < u.length) (h9 : u.headD 0 &&& 31 ≠ 9)
    (h12 : u.headD 0 &&& 31 ≠ 12) :
    emit u mtu = emitLoop u (u.headD 0 &&& 31) (u.headD 0 &&& 96)
      (mtu - 2) (u.length - 1) 1 (u.length - 1) := by
  rw [emit]
  have he : u.isEmpty = false := by
    cases u
    · simp at hlen
    · rfl
  simp only [he, Bool.false_eq_true, if_false, NALU_TYPE_BITMASK,
    NALU_REF_IDC_BITMASK, FUA_HEADER_SIZE]
  rw [if_neg (by rintro (h | h) <;> [exact h9 h; exact h12 h]),
    if_neg (by omega),
    if_neg (by
      have h4 : (3 : Int) ≤ (mtu : Int) := by exact_mod_cast h3
      have h5 : (mtu : Int) < (u.length : Int) := by exact_mod_cast hlen
      omega)]

theorem stapaLoop_error (avc : Bool) (packet : List Nat) :
    ∀ n off acc e, packet.length - off ≤ n →
    stapaLoop avc packet off acc = .errored e →
    ∃ d a, e = .StapASizeLargerThanBuffer d a ∧ a < d := by
  intro n
  induction n with
  | zero =>
    intro off acc e hn h
    rw [stapaLoop] at h
    rw [dif_neg (by omega)] at h
    exact absurd h (by simp)
  | succ n ih =>
    intro off acc e hn h
    rw [stapaLoop] at h
    by_cases hoff : off < packet.length
    · rw [dif_pos hoff] at h
      cases hget1 : packet.get? off with
      | none => rw [hget1] at h; exact absurd h (by simp)
      | some hi =>
        cases hget2 : packet.get? (off + 1) with
        | none => rw [hget1, hget2] at h; exact absurd h (by simp)
        | some lo =>
          rw [hget1, hget2] at h
          dsimp only [STAPA_NALU_LENGTH_SIZE] at h
          have hb2 : off + 1 < packet.length := by
            rcases List.get?_eq_some.mp hget2 with ⟨h1, _⟩
            exact h1
          by_cases hsz : packet.length < off + 2 + ((hi <<< 8) ||| lo)
          · rw [if_pos hsz] at h
            refine ⟨(hi <<< 8) ||| lo, packet.length - (off + 2), ?_, by omega⟩
            cases h
            rfl
          · rw [if_neg hsz] at h
            exact ih (off + 2 + ((hi <<< 8) ||| lo)) _ e (by omega) h
    · rw [dif_neg hoff] at h
      exact absurd h (by simp)

theorem stapaLoop_walk (avc : Bool) :
    ∀ (units : List (List Nat)) (pre acc : List Nat),
    (∀ u ∈ units, u.length < 65536) →
    stapaLoop avc (pre ++ (units.map stapaUnit).flatten) pre.length acc =
      .done (acc ++ (units.map (fun u =>
        (if avc then putU32 u.length else ANNEXB_NALUSTART_CODE) ++ u)).flatten) := by
  intro units
  induction units with
  | nil =>
    intro pre acc hlen
    rw [stapaLoop]
    rw [dif_neg (by simp)]
    simp
  | cons u rest ih =>
    intro pre acc hlen
    have hu : u.length < 65536 := hlen u (by simp)
    have hrest : ∀ v ∈ rest, v.length < 65536 := fun v hv => hlen v (by simp [hv])
    have hflat : ((u :: rest).map stapaUnit).flatten
        = stapaUnit u ++ (rest.map stapaUnit).flatten := by simp
    rw [hflat]
    have hsplit : pre ++ (stapaUnit u ++ (rest.map stapaUnit).flatten)
        = (pre ++ [u.length / 256, u.length % 256]) ++ (u ++ (rest.map stapaUnit).flatten) := by
      simp [stapaUnit]
    rw [stapaLoop]
    have hlen2 : (pre ++ (stapaUnit u ++ (rest.map stapaUnit).flatten)).length
        = pre.length + 2 + u.length + ((rest.map stapaUnit).flatten).length := by
      simp [stapaUnit]
      omega
    rw [dif_pos (by omega)]
    have hget1 : (pre ++ (stapaUnit u ++ (rest.map stapaUnit).flatten)).get? pre.length
        = some (u.length / 256) := by
      rw [List.get?_append_right (Nat.le_refl pre.length)]
      simp [stapaUnit]
    have hget2 : (pre ++ (stapaUnit u ++ (rest.map stapaUnit).flatten)).get? (pre.length + 1)
        = some (u.length % 256) := by
      rw [List.get?_append_right (by omega)]
      have h1 : pre.length + 1 - pre.length = 1 := by omega
      rw [h1]
      simp [stapaUnit]
    rw [hget1, hget2]
    dsimp only [STAPA_NALU_LENGTH_SIZE]
    have hsize : ((u.length / 256) <<< 8) ||| (u.length % 256) = u.length := by
      rw [shiftl8_lor (Nat.mod_lt _ (by norm_num))]
      omega
    rw [hsize]
    rw [if_neg (by omega)]
    have hdrop : (pre ++ (stapaUnit u ++ (rest.map stapaUnit).flatten)).drop (pre.length + 2)
        = u ++ (rest.map stapaUnit).flatten := by
      rw [hsplit]
      have h2 : pre.length + 2 = (pre ++ [u.length / 256, u.length % 256]).length := by simp
      rw [h2, List.drop_left]
    have htake : ((pre ++ (stapaUnit u ++ (rest.map stapaUnit).flatten)).drop
        (pre.length + 2)).take u.length = u := by
      rw [hdrop, List.take_left]
    rw [htake]
    have hoff : pre.length + 2 + u.length = (pre ++ stapaUnit u).length := by
      simp [stapaUnit]
      omega
    have hassoc : pre ++ (stapaUnit u ++ (rest.map stapaUnit).flatten)
        = (pre ++ stapaUnit u) ++ (rest.map stapaUnit).flatten := by
      rw [List.append_assoc]
    rw [hoff, hassoc]
    rw [ih (pre ++ stapaUnit u)
      (acc ++ (if avc then putU32 u.length else ANNEXB_NALUSTART_CODE) ++ u) hrest]
    simp

theorem stapaLoop_skip_units (avc : Bool) :
    ∀ (units : List (List Nat)) (pre acc tl : List Nat),
    (∀ u ∈ units, u.length < 65536) →
    stapaLoop avc (pre ++ ((units.map stapaUnit).flatten ++ tl)) pre.length acc =
      stapaLoop avc (pre ++ ((units.map stapaUnit).flatten ++ tl))
        (pre.length + ((units.map stapaUnit).flatten).length)
        (acc ++ (units.map (fun u =>
          (if avc then putU32 u.length else ANNEXB_NALUSTART_CODE) ++ u)).flatten) := by
  intro units
  induction units with
  | nil =>
    intro pre acc tl _
    simp
  | cons u rest ih =>
    intro pre acc tl hlen
    have hu : u.length < 65536 := hlen u (by simp)
    have hrest : ∀ v ∈ rest, v.length < 65536 := fun v hv => hlen v (by simp [hv])
    have hflat : ((u :: rest).map stapaUnit).flatten
        = stapaUnit u ++ (rest.map stapaUnit).flatten := by simp
    rw [hflat]
    have hassoc0 : (stapaUnit u ++ (rest.map stapaUnit).flatten) ++ tl
        = stapaUnit u ++ ((rest.map stapaUnit).flatten ++ tl) := by
      rw [List.append_assoc]
    rw [hassoc0]
    have hsplit : pre ++ (stapaUnit u ++ ((rest.map stapaUnit).flatten ++ tl))
        = (pre ++ [u.length / 256, u.length % 256])
          ++ (u ++ ((rest.map stapaUnit).flatten ++ tl)) := by
      simp [stapaUnit]
    conv_lhs => rw [stapaLoop]
    have hlen2 : (pre ++ (stapaUnit u ++ ((rest.map stapaUnit).flatten ++ tl))).length
        = pre.length + 2 + u.length + ((rest.map stapaUnit).flatten ++ tl).length := by
      simp [stapaUnit]
      omega
    rw [dif_pos (by omega)]
    have hget1 : (pre ++ (stapaUnit u
        ++ ((rest.map stapaUnit).flatten ++ tl))).get? pre.length
        = some (u.length / 256) := by
      rw [List.get?_append_right (Nat.le_refl pre.length)]
      simp [stapaUnit]
    have hget2 : (pre ++ (stapaUnit u
        ++ ((rest.map stapaUnit).flatten ++ tl))).get? (pre.length + 1)
        = some (u.length % 256) := by
      rw [List.get?_append_right (by omega)]
      have h1 : pre.length + 1 - pre.length = 1 := by omega
      rw [h1]
      simp [stapaUnit]
    rw [hget1, hget2]
    dsimp only [STAPA_NALU_LENGTH_SIZE]
    have hsize : ((u.length / 256) <<< 8) ||| (u.length % 256) = u.length := by
      rw [shiftl8_lor (Nat.mod_lt _ (by norm_num))]
      omega
    rw [hsize]
    rw [if_neg (by omega)]
    have hdrop : (pre ++ (stapaUnit u
        ++ ((rest.map stapaUnit).flatten ++ tl))).drop (pre.length + 2)
        = u ++ ((rest.map stapaUnit).flatten ++ tl) := by
      rw [hsplit]
      have h2 : pre.length + 2 = (pre ++ [u.length / 256, u.length % 256]).length := by
        simp
      rw [h2, List.drop_left]
    have htake : ((pre ++ (stapaUnit u
        ++ ((rest.map stapaUnit).flatten ++ tl))).drop
        (pre.length + 2)).take u.length = u := by
      rw [hdrop, List.take_left]
    rw [htake]
    have hofr : pre.length + (stapaUnit u ++ (rest.map stapaUnit).flatten).length
        = (pre ++ stapaUnit u).length + ((rest.map stapaUnit).flatten).length := by
      simp [stapaUnit]
      omega
    have hemr : acc ++ ((u :: rest).map (fun v =>
        (if avc then putU32 v.length else ANNEXB_NALUSTART_CODE) ++ v)).flatten
        = (acc ++ (if avc then putU32 u.length else ANNEXB_NALUSTART_CODE) ++ u)
          ++ ((rest.map (fun v =>
            (if avc then putU32 v.length else ANNEXB_NALUSTART_CODE) ++ v)).flatten) := by
      simp [List.append_assoc]
    have hoff : pre.length + 2 + u.length = (pre ++ stapaUnit u).length := by
      simp [stapaUnit]
      omega
    have hassoc : pre ++ (stapaUnit u ++ ((rest.map stapaUnit).flatten ++ tl))
        = (pre ++ stapaUnit u) ++ ((rest.map stapaUnit).flatten ++ tl) := by
      rw [List.append_assoc]
    rw [hofr, hemr, hoff, hassoc]
    exact ih (pre ++ stapaUnit u)
      (acc ++ (if avc then putU32 u.length else ANNEXB_NALUSTART_CODE) ++ u) tl hrest

theorem depacketize_single_nalu (x : H264Packet) (packet : List Nat)
    (hlen : 2 < packet.length) (h1 : 1 ≤ packet.headD 0 &&& 31)
    (h23 : packet.headD 0 &&& 31 ≤ 23) :
    depacketize x packet = .ok { x with payload :=
      (if x.is_avc then putU32 packet.length else ANNEXB_NALUSTART_CODE) ++ packet } := by
  rw [depacketize, if_neg (by omega)]
  simp only [NALU_TYPE_BITMASK]
  rw [if_pos ⟨h1, h23⟩]

theorem depacketize_stapa_dispatch (x : H264Packet) (packet : List Nat)
    (hlen : 2 < packet.length) (hhead : packet.headD 0 &&& 31 = 24) :
    depacketize x packet =
      match stapaLoop x.is_avc packet 1 [] with
      | .done out => .ok { x with payload := out }
      | .errored e => .err e x
      | .panicked => .panicked := by
  rw [depacketize, if_neg (by omega)]
  simp only [NALU_TYPE_BITMASK, STAPA_NALU_TYPE, STAPA_HEADER_SIZE, hhead]
  simp

theorem depacketize_eq (x : H264Packet) (p : List Nat) :
    depacketize x p =
      if p.length ≤ 2 then .err .ErrShortPacket x
      else if 1 ≤ p.headD 0 &&& 31 ∧ p.headD 0 &&& 31 ≤ 23 then
        .ok { x with payload :=
          (if x.is_avc then putU32 p.length else ANNEXB_NALUSTART_CODE) ++ p }
      else if p.headD 0 &&& 31 = 24 then
        match stapaLoop x.is_avc p 1 [] with
        | .done out => .ok { x with payload := out }
        | .errored e => .err e x
        | .panicked => .panicked
      else if p.headD 0 &&& 31 = 28 then
        if p.length < 2 then .err .ErrShortPacket x
        else if p.getD 1 0 &&& 64 ≠ 0 then
          .ok { x with
            payload :=
              ((if x.is_avc then putU32 ((x.fua_buffer.getD [] ++ p.drop 2).length + 1)
                else ANNEXB_NALUSTART_CODE)
                ++ ((p.headD 0 &&& 96) ||| (p.getD 1 0 &&& 31))
                  :: (x.fua_buffer.getD [] ++ p.drop 2)),
            fua_buffer := none }
        else .ok { x with
          payload := ([] : List Nat),
          fua_buffer := some (x.fua_buffer.getD [] ++ p.drop 2) }
      else .err (.NaluTypeIsNotHandled (p.headD 0 &&& 31)) x := rfl

theorem payload_ok (mtu : Nat) (p : List Nat) : ∃ out, payload mtu p = .ok out := by
  rw [payload]
  by_cases h : p.isEmpty = true ∨ mtu = 0
  · rw [if_pos h]; exact ⟨[], rfl⟩
  · rw [if_neg h]
    cases hni : next_ind p 0 with
    | none => exact ⟨emit p mtu, rfl⟩
    | some sl =>
      cases sl with
      | mk s l => exact ⟨payloadLoop p mtu s l, rfl⟩

theorem emit_frags_spec (u : List Nat) (mtu : Nat) (hmtu : 3 ≤ mtu)
    (hlen : mtu < u.length) (h9 : u.headD 0 &&& 31 ≠ 9)
    (h12 : u.headD 0 &&& 31 ≠ 12) :
    2 ≤ (emit u mtu).length ∧
    (∀ i, i < (emit u mtu).length →
      ((emit u mtu).getD i []).getD 1 0 =
        if i = 0 then (u.headD 0 &&& 31) ||| 128
        else if i = (emit u mtu).length - 1 then (u.headD 0 &&& 31) ||| 64
        else u.headD 0 &&& 31) := by
  rw [emit_fragmented u mtu hmtu hlen h9 h12]
  have hmfs : mtu - 2 ≠ 0 := by omega
  have hdl : mtu - 2 < u.length - 1 := by omega
  have hd0 : u.length - 1 ≠ 0 := by omega
  have hmin : min (mtu - 2) (u.length - 1) = mtu - 2 := min_eq_left (le_of_lt hdl)
  have hcons := emitLoop_cons u (u.headD 0 &&& 31) (u.headD 0 &&& 96)
    (mtu - 2) (u.length - 1) 1 (u.length - 1) hd0 hmfs
  rw [hmin, if_pos rfl] at hcons
  have htail := emitLoop_length_pos u (u.headD 0 &&& 31) (u.headD 0 &&& 96)
    (mtu - 2) (u.length - 1) (1 + (mtu - 2)) (u.length - 1 - (mtu - 2))
    (by omega) hmfs
  constructor
  · rw [hcons]
    simp only [List.length_cons]
    omega
  · intro i hi
    rw [hcons] at hi ⊢
    match i with
    | 0 =>
      simp only [List.getD_cons_zero, List.getD_cons_succ, List.length_cons]
      simp
    | Nat.succ j =>
      simp only [List.getD_cons_succ, List.length_cons] at hi ⊢
      have hb1 := emitLoop_b1_tail u (u.headD 0 &&& 31) (u.headD 0 &&& 96)
        (mtu - 2) (u.length - 1) hmfs (u.length - 1 - (mtu - 2))
        (u.length - 1 - (mtu - 2)) (1 + (mtu - 2)) (Nat.le_refl _)
        (by omega) (by omega) j (by omega)
      rw [hb1]
      split <;> split <;> try split
      all_goals first
      | rfl
      | omega

theorem emit_bits_iff (u : List Nat) (mtu : Nat) (hmtu : 3 ≤ mtu)
    (hlen : mtu < u.length) (h9 : u.headD 0 &&& 31 ≠ 9)
    (h12 : u.headD 0 &&& 31 ≠ 12) :
    ∀ i, i < (emit u mtu).length →
    ((((emit u mtu).getD i []).getD 1 0 &&& 128 ≠ 0) ↔ i = 0) ∧
    ((((emit u mtu).getD i []).getD 1 0 &&& 64 ≠ 0) ↔
      i = (emit u mtu).length - 1) := by
  obtain ⟨hlen2, hform⟩ := emit_frags_spec u mtu hmtu hlen h9 h12
  intro i hi
  have ht31 : u.headD 0 &&& 31 ≤ 31 := and31_le _
  rw [hform i hi]
  by_cases hi0 : i = 0
  · subst hi0
    rw [if_pos rfl]
    constructor
    · rw [t31_or128_and128 ht31]
      simp
    · rw [t31_or128_and64 ht31]
      simp
      omega
  · rw [if_neg hi0]
    by_cases hil : i = (emit u mtu).length - 1
    · rw [if_pos hil]
      constructor
      · rw [t31_or64_and128 ht31]
        simp [hi0]
      · rw [t31_or64_and64 ht31]
        simp [hil]
    · rw [if_neg hil]
      constructor
      · rw [t31_and128 ht31]
        simp [hi0]
      · rw [t31_and64 ht31]
        simp [hil]

theorem depacketize_err_state {x : H264Packet} {p : List Nat} {e : Error}
    {s : H264Packet} (h : depacketize x p = .err e s) : s = x := by
  rw [depacketize_eq] at h
  by_cases hL : p.length ≤ 2
  · rw [if_pos hL] at h; cases h; rfl
  · rw [if_neg hL] at h
    by_cases h1 : 1 ≤ p.headD 0 &&& 31 ∧ p.headD 0 &&& 31 ≤ 23
    · rw [if_pos h1] at h; exact absurd h (by simp)
    · rw [if_neg h1] at h
      by_cases h24 : p.headD 0 &&& 31 = 24
      · rw [if_pos h24] at h
        cases hs : stapaLoop x.is_avc p 1 [] with
        | done out => rw [hs] at h; exact absurd h (by simp)
        | errored e2 => rw [hs] at h; injection h with he hs2; exact hs2.symm
        | panicked => rw [hs] at h; exact absurd h (by simp)
      · rw [if_neg h24] at h
        by_cases h28 : p.headD 0 &&& 31 = 28
        · rw [if_pos h28] at h
          by_cases hS : p.length < 2
          · rw [if_pos hS] at h; cases h; rfl
          · rw [if_neg hS] at h
            by_cases hE : p.getD 1 0 &&& 64 ≠ 0
            · rw [if_pos hE] at h; exact absurd h (by simp)
            · rw [if_neg hE] at h; exact absurd h (by simp)
        · rw [if_neg h28] at h; cases h; rfl

theorem depacketize_keeps_buffer {x : H264Packet} {p : List Nat}
    (ht : p.headD 0 &&& 31 ≠ 28) (s : H264Packet)
    (h : depacketize x p = .ok s ∨ ∃ e, depacketize x p = .err e s) :
    s.fua_buffer = x.fua_buffer := by
  rcases h with h | ⟨e, h⟩
  · rw [depacketize_eq] at h
    by_cases hL : p.length ≤ 2
    · rw [if_pos hL] at h; exact absurd h (by simp)
    · rw [if_neg hL] at h
      by_cases h1 : 1 ≤ p.headD 0 &&& 31 ∧ p.headD 0 &&& 31 ≤ 23
      · rw [if_pos h1] at h; cases h; rfl
      · rw [if_neg h1] at h
        by_cases h24 : p.headD 0 &&& 31 = 24
        · rw [if_pos h24] at h
          cases hs : stapaLoop x.is_avc p 1 [] with
          | done out => rw [hs] at h; cases h; rfl
          | errored e2 => rw [hs] at h; exact absurd h (by simp)
          | panicked => rw [hs] at h; exact absurd h (by simp)
        · rw [if_neg h24] at h
          rw [if_neg ht] at h
          exact absurd h (by simp)
  · rw [depacketize_err_state h]

end H264

namespace H264

/-- C1: the claim states that `depacketize` is total — every byte sequence
yields `Ok` or one of the declared errors, and the STAP-A branch never
indexes out of bounds.  The code violates this: on the STAP-A payload
`[0x18, 0x00, 0x01, 0xAA, 0xBB]` (one well-formed 1-byte unit followed by a
single trailing byte) the loop re-enters with `curr_offset = 4 < 5` and
reads `packet[5]`, out of bounds, which panics. -/
theorem C1_stapa_out_of_bounds :
    depacketize ⟨false, [], none⟩ [0x18, 0x00, 0x01, 0xAA, 0xBB]
      = .panicked := by
  simp [depacketize, stapaLoop, STAPA_NALU_TYPE, NALU_TYPE_BITMASK,
    STAPA_HEADER_SIZE, STAPA_NALU_LENGTH_SIZE, FUA_NALU_TYPE,
    ANNEXB_NALUSTART_CODE]
  decide

/-- C2 counterexample: the claim quantifies over every NAL unit `u` with
`len(u) > mtu`, but (i) a unit of type 9 is dropped and produces no
fragments at all, (ii) with `mtu = 2` fragmentation is impossible and
nothing is emitted, and (iii) a buffer containing an interior start code is
split at the start code, so the emitted fragment need not even carry an FU
header (here the single fragment `[66]` has no Start bit). -/
theorem C2_counterexample :
    payload 3 [9, 5, 5, 5] = .ok [] ∧
    payload 2 [65, 1, 2] = .ok [] ∧
    payload 3 [65, 0, 0, 1, 66] = .ok [[66]] := by
  refine ⟨?_, ?_, ?_⟩
  · have h9 : (9 : Nat) &&& 31 = 9 := by decide
    simp [payload, next_ind, nextIndAux, emit, NALU_TYPE_BITMASK,
      NALU_REF_IDC_BITMASK, h9]
  · simp [payload, next_ind, nextIndAux, emit, NALU_TYPE_BITMASK,
      NALU_REF_IDC_BITMASK, FUA_HEADER_SIZE]
  · simp [payload, payloadLoop, next_ind, nextIndAux, emit, NALU_TYPE_BITMASK,
      NALU_REF_IDC_BITMASK, FUA_HEADER_SIZE]
    decide

/-- C2 (amended): fragmentation round trip, for a NAL unit that contains no
Annex-B start code, is not of type 9 or 12, with `mtu ≥ 3` and
`len(u) > mtu`: `payload` emits the FU-A fragments, exactly the first
fragment carries the Start bit, exactly the last carries the End bit, and
feeding them in order into a fresh depacketizer yields empty output on
every call but the last, which reconstructs
`prefix ++ [ref_idc ||| type] ++ u[1:]`. -/
theorem C2_fragmentation_roundtrip (avc : Bool) (pl0 : List Nat)
    (u : List Nat) (mtu : Nat) (hmtu : 3 ≤ mtu) (hlen : mtu < u.length)
    (hsc : next_ind u 0 = none) (h9 : u.headD 0 &&& 31 ≠ 9)
    (h12 : u.headD 0 &&& 31 ≠ 12) :
    payload mtu u = .ok (emit u mtu) ∧ emit u mtu ≠ [] ∧
    (∀ i, i < (emit u mtu).length →
      ((((emit u mtu).getD i []).getD 1 0 &&& 128 ≠ 0) ↔ i = 0) ∧
      ((((emit u mtu).getD i []).getD 1 0 &&& 64 ≠ 0) ↔
        i = (emit u mtu).length - 1)) ∧
    feedAll ⟨avc, pl0, none⟩ (emit u mtu) =
      some (List.replicate ((emit u mtu).length - 1) [] ++
        [(if avc then putU32 u.length else ANNEXB_NALUSTART_CODE) ++
          ((u.headD 0 &&& 96) ||| (u.headD 0 &&& 31)) :: u.drop 1],
        ⟨avc, (if avc then putU32 u.length else ANNEXB_NALUSTART_CODE) ++
          ((u.headD 0 &&& 96) ||| (u.headD 0 &&& 31)) :: u.drop 1, none⟩) := by
  have hne : u ≠ [] := by
    intro h
    rw [h] at hlen
    simp at hlen
  obtain ⟨hlen2, _⟩ := emit_frags_spec u mtu hmtu hlen h9 h12
  refine ⟨payload_no_start mtu u hne (by omega) hsc,
    List.length_pos.mp (by omega), emit_bits_iff u mtu hmtu hlen h9 h12, ?_⟩
  have hmfs : mtu - 2 ≠ 0 := by omega
  have hdl : mtu - 2 < u.length - 1 := by omega
  have hd0 : u.length - 1 ≠ 0 := by omega
  have hmin : min (mtu - 2) (u.length - 1) = mtu - 2 := min_eq_left (le_of_lt hdl)
  have hcons := emitLoop_cons u (u.headD 0 &&& 31) (u.headD 0 &&& 96)
    (mtu - 2) (u.length - 1) 1 (u.length - 1) hd0 hmfs
  rw [hmin, if_pos rfl] at hcons
  have hchunklen : ((u.drop 1).take (mtu - 2)).length = mtu - 2 := by
    rw [List.length_take]
    simp only [List.length_drop]
    omega
  have hchunkne : (u.drop 1).take (mtu - 2) ≠ [] := by
    intro hn
    rw [hn] at hchunklen
    simp at hchunklen
    omega
  have hdep := depacketize_fua_frag avc pl0 none (u.headD 0 &&& 96)
    ((u.headD 0 &&& 31) ||| 128) ((u.drop 1).take (mtu - 2)) hchunkne
    (and96_le _) (mask_and_idem _ _)
  rw [t31_or128_and64 (and31_le _)] at hdep
  rw [if_neg (by norm_num)] at hdep
  simp only [Option.getD_none, List.nil_append] at hdep
  have hfeed := feedAll_emitLoop_tail u (u.headD 0 &&& 31) (u.headD 0 &&& 96)
    (mtu - 2) (u.length - 1) avc hmfs (and31_le _) (and96_le _)
    (mask_and_idem _ _) (u.length - 1 - (mtu - 2)) (u.length - 1 - (mtu - 2))
    (1 + (mtu - 2)) [] ((u.drop 1).take (mtu - 2)) (Nat.le_refl _)
    (by omega) (by omega) (by omega)
  have hglue : (u.drop 1).take (mtu - 2) ++ u.drop (1 + (mtu - 2)) = u.drop 1 := by
    have h3 : u.drop (1 + (mtu - 2)) = (u.drop 1).drop (mtu - 2) := by
      rw [List.drop_drop, Nat.add_comm]
    rw [h3, List.take_append_drop]
  rw [hglue] at hfeed
  have hfin : fuaFinal avc (u.headD 0 &&& 31) (u.headD 0 &&& 96) (u.drop 1) =
      (if avc then putU32 u.length else ANNEXB_NALUSTART_CODE) ++
        ((u.headD 0 &&& 96) ||| (u.headD 0 &&& 31)) :: u.drop 1 := by
    simp only [fuaFinal, List.length_drop]
    have h4 : u.length - 1 + 1 = u.length := by omega
    rw [h4]
  rw [hfin] at hfeed
  have hn2 := emitLoop_length_pos u (u.headD 0 &&& 31) (u.headD 0 &&& 96)
    (mtu - 2) (u.length - 1) (1 + (mtu - 2)) (u.length - 1 - (mtu - 2))
    (by omega) hmfs
  rw [emit_fragmented u mtu hmtu hlen h9 h12, hcons, feedAll, hdep]
  dsimp only
  rw [hfeed]
  simp only [Option.map, List.length_cons, Nat.add_sub_cancel]
  have hrep : ([] : List Nat) ::
      (List.replicate ((emitLoop u (u.headD 0 &&& 31) (u.headD 0 &&& 96)
        (mtu - 2) (u.length - 1) (1 + (mtu - 2))
        (u.length - 1 - (mtu - 2))).length - 1) [] ++
        [(if avc then putU32 u.length else ANNEXB_NALUSTART_CODE) ++
          ((u.headD 0 &&& 96) ||| (u.headD 0 &&& 31)) :: u.drop 1]) =
      List.replicate ((emitLoop u (u.headD 0 &&& 31) (u.headD 0 &&& 96)
        (mtu - 2) (u.length - 1) (1 + (mtu - 2))
        (u.length - 1 - (mtu - 2))).length) [] ++
        [(if avc then putU32 u.length else ANNEXB_NALUSTART_CODE) ++
          ((u.headD 0 &&& 96) ||| (u.headD 0 &&& 31)) :: u.drop 1] := by
    conv_rhs => rw [show (emitLoop u (u.headD 0 &&& 31) (u.headD 0 &&& 96)
      (mtu - 2) (u.length - 1) (1 + (mtu - 2))
      (u.length - 1 - (mtu - 2))).length
        = ((emitLoop u (u.headD 0 &&& 31) (u.headD 0 &&& 96)
          (mtu - 2) (u.length - 1) (1 + (mtu - 2))
          (u.length - 1 - (mtu - 2))).length - 1) + 1 by omega]
    rw [List.replicate_succ]
    simp
  rw [hrep]

/-- C2 witness: the round trip at `u = [0x65, 1, 2, 3, 4]`, `mtu = 4`
(Annex-B mode, fresh depacketizer). -/
theorem C2_fragmentation_roundtrip_witness :
    (3 ≤ 4 ∧ 4 < [0x65, 1, 2, 3, 4].length ∧
      next_ind [0x65, 1, 2, 3, 4] 0 = none ∧
      [0x65, 1, 2, 3, 4].headD 0 &&& 31 ≠ 9 ∧
      [0x65, 1, 2, 3, 4].headD 0 &&& 31 ≠ 12) ∧
    (payload 4 [0x65, 1, 2, 3, 4] = .ok (emit [0x65, 1, 2, 3, 4] 4) ∧
      emit [0x65, 1, 2, 3, 4] 4 ≠ [] ∧
      (∀ i, i < (emit [0x65, 1, 2, 3, 4] 4).length →
        ((((emit [0x65, 1, 2, 3, 4] 4).getD i []).getD 1 0 &&& 128 ≠ 0) ↔ i = 0) ∧
        ((((emit [0x65, 1, 2, 3, 4] 4).getD i []).getD 1 0 &&& 64 ≠ 0) ↔
          i = (emit [0x65, 1, 2, 3, 4] 4).length - 1)) ∧
      feedAll ⟨false, [], none⟩ (emit [0x65, 1, 2, 3, 4] 4) =
        some (List.replicate ((emit [0x65, 1, 2, 3, 4] 4).length - 1) [] ++
          [(if false then putU32 [0x65, 1, 2, 3, 4].length
            else ANNEXB_NALUSTART_CODE) ++
            (([0x65, 1, 2, 3, 4].headD 0 &&& 96) |||
              ([0x65, 1, 2, 3, 4].headD 0 &&& 31)) :: [0x65, 1, 2, 3, 4].drop 1],
          ⟨false, (if false then putU32 [0x65, 1, 2, 3, 4].length
            else ANNEXB_NALUSTART_CODE) ++
            (([0x65, 1, 2, 3, 4].headD 0 &&& 96) |||
              ([0x65, 1, 2, 3, 4].headD 0 &&& 31)) :: [0x65, 1, 2, 3, 4].drop 1,
            none⟩)) :=
  ⟨⟨by decide, by decide, rfl, by decide, by decide⟩,
    C2_fragmentation_roundtrip false [] [0x65, 1, 2, 3, 4] 4
      (by decide) (by decide) rfl (by decide) (by decide)⟩

/-- C3: FU-A emission structure — for a NAL unit of a type other than 9 and
12 with `len(u) > mtu` and `mtu ≥ 3`, every fragment emitted by `emit` has
length ≤ mtu, first byte `28 ||| (u[0] &&& 0x60)` and a second byte whose
low 5 bits are `u[0] &&& 0x1F`; the Start bit (bit 7) is set exactly on the
first fragment, the End bit (bit 6) exactly on the last, and the chunk
bytes concatenate to `u[1:]`. -/
theorem C3_fua_emission (u : List Nat) (mtu : Nat) (hmtu : 3 ≤ mtu)
    (hlen : mtu < u.length) (h9 : u.headD 0 &&& 31 ≠ 9)
    (h12 : u.headD 0 &&& 31 ≠ 12) :
    emit u mtu ≠ [] ∧
    (∀ f ∈ emit u mtu, f.length ≤ mtu ∧
      f.headD 0 = 28 ||| (u.headD 0 &&& 96) ∧
      (f.getD 1 0) &&& 31 = u.headD 0 &&& 31) ∧
    (∀ i, i < (emit u mtu).length →
      ((((emit u mtu).getD i []).getD 1 0 &&& 128 ≠ 0) ↔ i = 0) ∧
      ((((emit u mtu).getD i []).getD 1 0 &&& 64 ≠ 0) ↔
        i = (emit u mtu).length - 1)) ∧
    ((emit u mtu).map (fun f => f.drop 2)).flatten = u.drop 1 := by
  obtain ⟨hlen2, _⟩ := emit_frags_spec u mtu hmtu hlen h9 h12
  have ht31 : u.headD 0 &&& 31 ≤ 31 := and31_le _
  refine ⟨List.length_pos.mp (by omega), ?_,
    emit_bits_iff u mtu hmtu hlen h9 h12, ?_⟩
  · intro f hf
    rw [emit_fragmented u mtu hmtu hlen h9 h12] at hf
    obtain ⟨b, c, hfeq, hclen, hb⟩ := emitLoop_mem_shape u (u.headD 0 &&& 31)
      (u.headD 0 &&& 96) (mtu - 2) (u.length - 1) (u.length - 1)
      (u.length - 1) 1 (Nat.le_refl _) f hf
    subst hfeq
    refine ⟨by simp; omega, by simp, ?_⟩
    simp only [List.getD_cons_succ, List.getD_cons_zero]
    rcases hb with hb | hb | hb <;> subst hb
    · exact t31_and31 ht31
    · exact t31_or64_and31 ht31
    · exact t31_or128_and31 ht31
  · rw [emit_fragmented u mtu hmtu hlen h9 h12]
    have := emitLoop_flatten_drop u (u.headD 0 &&& 31) (u.headD 0 &&& 96)
      (mtu - 2) (u.length - 1) (by omega) (u.length - 1) (u.length - 1) 1
      (Nat.le_refl _) (by omega)
    exact this

/-- C3 witness: the FU-A emission structure at `u = [0x65, 1, 2, 3]`,
`mtu = 3`. -/
theorem C3_fua_emission_witness :
    (3 ≤ 3 ∧ 3 < [0x65, 1, 2, 3].length ∧
      [0x65, 1, 2, 3].headD 0 &&& 31 ≠ 9 ∧
      [0x65, 1, 2, 3].headD 0 &&& 31 ≠ 12) ∧
    (emit [0x65, 1, 2, 3] 3 ≠ [] ∧
      (∀ f ∈ emit [0x65, 1, 2, 3] 3, f.length ≤ 3 ∧
        f.headD 0 = 28 ||| ([0x65, 1, 2, 3].headD 0 &&& 96) ∧
        (f.getD 1 0) &&& 31 = [0x65, 1, 2, 3].headD 0 &&& 31) ∧
      (∀ i, i < (emit [0x65, 1, 2, 3] 3).length →
        ((((emit [0x65, 1, 2, 3] 3).getD i []).getD 1 0 &&& 128 ≠ 0) ↔ i = 0) ∧
        ((((emit [0x65, 1, 2, 3] 3).getD i []).getD 1 0 &&& 64 ≠ 0) ↔
          i = (emit [0x65, 1, 2, 3] 3).length - 1)) ∧
      ((emit [0x65, 1, 2, 3] 3).map (fun f => f.drop 2)).flatten
        = [0x65, 1, 2, 3].drop 1) :=
  ⟨⟨by decide, by decide, by decide, by decide⟩,
    C3_fua_emission [0x65, 1, 2, 3] 3 (by decide) (by decide)
      (by decide) (by decide)⟩

/-- C4 counterexample: the claim describes the STAP-A walk as emitting unit
after unit until the buffer is exhausted, failing only with
`StapAUnitTooLarge`.  On `[24, 0, 2, 7, 8, 9]` (one well-formed 2-byte unit
followed by one stray byte) the walk neither finishes nor returns that
error: it reads `packet[6]` out of bounds and panics. -/
theorem C4_counterexample :
    depacketize ⟨false, [], none⟩ [24, 0, 2, 7, 8, 9] = .panicked := by
  simp [depacketize, stapaLoop, STAPA_NALU_TYPE, NALU_TYPE_BITMASK,
    STAPA_HEADER_SIZE, STAPA_NALU_LENGTH_SIZE, FUA_NALU_TYPE,
    ANNEXB_NALUSTART_CODE]
  decide

/-- C4 (amended): STAP-A unpacking.  (1) On a well-formed aggregate (every
length field complete and correct) the walk emits `prefix ++ unit` for each
unit in order until the buffer is exhausted; (2) wherever the walk reaches
a unit declaring more bytes than remain after its length field — after any
run of well-formed units — it fails with
`StapASizeLargerThanBuffer declared available` (in particular declaring
`a + 1` with only `a` bytes left yields the error with those values);
(3) that error only arises with `available < declared`.  (The unamended
claim is false because a truncated length field makes the code index out
of bounds instead.) -/
theorem C4_stapa_unpacking (x : H264Packet) (units : List (List Nat))
    (hunits : ∀ u ∈ units, u.length < 65536) (hne : units ≠ []) :
    depacketize x (mkStapA units) = .ok { x with payload :=
      (units.map (fun u =>
        (if x.is_avc then putU32 u.length else ANNEXB_NALUSTART_CODE) ++ u)).flatten } ∧
    (∀ (pfx : List (List Nat)) d (rest : List Nat),
      (∀ u ∈ pfx, u.length < 65536) → rest.length < d → d < 65536 →
      depacketize x (mkStapA pfx ++ d / 256 :: d % 256 :: rest)
        = .err (.StapASizeLargerThanBuffer d rest.length) x) ∧
    (∀ (p : List Nat) d a s,
      depacketize x p = .err (.StapASizeLargerThanBuffer d a) s → a < d) := by
  refine ⟨?_, ?_, ?_⟩
  · obtain ⟨v, vs, rfl⟩ := List.exists_cons_of_ne_nil hne
    have hlen3 : 2 < (mkStapA (v :: vs)).length := by
      simp [mkStapA, stapaUnit]
    have hhead : (mkStapA (v :: vs)).headD 0 &&& 31 = 24 := by
      simp only [mkStapA, STAPA_NALU_TYPE, List.headD_cons]
      decide
    rw [depacketize_stapa_dispatch x (mkStapA (v :: vs)) hlen3 hhead]
    have hwalk := stapaLoop_walk x.is_avc (v :: vs) [STAPA_NALU_TYPE] [] hunits
    simp only [List.length_cons, List.length_nil, Nat.zero_add] at hwalk
    rw [show mkStapA (v :: vs)
      = [STAPA_NALU_TYPE] ++ ((v :: vs).map stapaUnit).flatten from rfl]
    rw [hwalk]
    simp
  · intro pfx d rest hus hrd hd
    have hL1 : (mkStapA pfx).length
        = 1 + ((pfx.map stapaUnit).flatten).length := by
      simp [mkStapA]
      omega
    have hPKlen : (mkStapA pfx ++ d / 256 :: d % 256 :: rest).length
        = (mkStapA pfx).length + (2 + rest.length) := by
      simp
      omega
    have hlen4 : 2 < (mkStapA pfx ++ d / 256 :: d % 256 :: rest).length := by
      rw [hPKlen]
      omega
    have hhead4 : (mkStapA pfx ++ d / 256 :: d % 256 :: rest).headD 0 &&& 31
        = 24 := by
      simp only [mkStapA, STAPA_NALU_TYPE, List.cons_append, List.headD_cons]
      decide
    rw [depacketize_stapa_dispatch x _ hlen4 hhead4]
    have hskip := stapaLoop_skip_units x.is_avc pfx [STAPA_NALU_TYPE] []
      (d / 256 :: d % 256 :: rest) hus
    simp only [List.length_cons, List.length_nil, Nat.zero_add,
      List.nil_append] at hskip
    have hpk : [STAPA_NALU_TYPE] ++ ((pfx.map stapaUnit).flatten
        ++ d / 256 :: d % 256 :: rest)
        = mkStapA pfx ++ d / 256 :: d % 256 :: rest := by
      simp [mkStapA]
    rw [hpk] at hskip
    rw [hskip]
    rw [stapaLoop]
    rw [dif_pos (by omega)]
    have hget1 : (mkStapA pfx ++ d / 256 :: d % 256 :: rest).get?
        (1 + ((pfx.map stapaUnit).flatten).length) = some (d / 256) := by
      rw [List.get?_append_right (by omega)]
      have hsub0 : 1 + ((pfx.map stapaUnit).flatten).length
          - (mkStapA pfx).length = 0 := by omega
      rw [hsub0]
      rfl
    have hget2 : (mkStapA pfx ++ d / 256 :: d % 256 :: rest).get?
        (1 + ((pfx.map stapaUnit).flatten).length + 1) = some (d % 256) := by
      rw [List.get?_append_right (by omega)]
      have hsub1 : 1 + ((pfx.map stapaUnit).flatten).length + 1
          - (mkStapA pfx).length = 1 := by omega
      rw [hsub1]
      rfl
    rw [hget1, hget2]
    dsimp only [STAPA_NALU_LENGTH_SIZE]
    have hsz : ((d / 256) <<< 8) ||| (d % 256) = d := by
      rw [shiftl8_lor (Nat.mod_lt _ (by norm_num))]
      omega
    rw [hsz]
    rw [if_pos (by omega)]
    have havail : (mkStapA pfx ++ d / 256 :: d % 256 :: rest).length
        - (1 + ((pfx.map stapaUnit).flatten).length + 2) = rest.length := by
      omega
    rw [havail]
  · intro p d a s h
    rw [depacketize_eq] at h
    by_cases hL : p.length ≤ 2
    · rw [if_pos hL] at h
      exact absurd h (by simp)
    · rw [if_neg hL] at h
      by_cases h1 : 1 ≤ p.headD 0 &&& 31 ∧ p.headD 0 &&& 31 ≤ 23
      · rw [if_pos h1] at h
        exact absurd h (by simp)
      · rw [if_neg h1] at h
        by_cases h24 : p.headD 0 &&& 31 = 24
        · rw [if_pos h24] at h
          cases hs : stapaLoop x.is_avc p 1 [] with
          | done out => rw [hs] at h; exact absurd h (by simp)
          | errored e2 =>
            rw [hs] at h
            obtain ⟨d2, a2, he2, hlt2⟩ := stapaLoop_error x.is_avc p
              p.length 1 [] e2 (by omega) hs
            injection h with he hstate
            rw [he2] at he
            cases he
            exact hlt2
          | panicked => rw [hs] at h; exact absurd h (by simp)
        · rw [if_neg h24] at h
          by_cases h28 : p.headD 0 &&& 31 = 28
          · rw [if_pos h28] at h
            by_cases hS : p.length < 2
            · rw [if_pos hS] at h
              exact absurd h (by simp)
            · rw [if_neg hS] at h
              by_cases hE : p.getD 1 0 &&& 64 ≠ 0
              · rw [if_pos hE] at h; exact absurd h (by simp)
              · rw [if_neg hE] at h; exact absurd h (by simp)
          · rw [if_neg h28] at h
            exact absurd h (by simp)

/-- C4 witness: unpacking the well-formed two-unit aggregate
`mkStapA [[7], [8, 9]]` in Annex-B mode, with the error case instantiated
at `declared = a + 1 = 1`, `available = a = 0`. -/
theorem C4_stapa_unpacking_witness :
    ((∀ u ∈ [[7], [8, 9]], List.length u < 65536) ∧
      ([[7], [8, 9]] : List (List Nat)) ≠ []) ∧
    (depacketize ⟨false, [], none⟩ (mkStapA [[7], [8, 9]]) =
      .ok { (⟨false, [], none⟩ : H264Packet) with payload :=
        (([[7], [8, 9]] : List (List Nat)).map (fun u =>
          (if (⟨false, [], none⟩ : H264Packet).is_avc then putU32 u.length
            else ANNEXB_NALUSTART_CODE) ++ u)).flatten } ∧
      (∀ (pfx : List (List Nat)) d (rest : List Nat),
        (∀ u ∈ pfx, u.length < 65536) → rest.length < d → d < 65536 →
        depacketize ⟨false, [], none⟩ (mkStapA pfx ++ d / 256 :: d % 256 :: rest)
          = .err (.StapASizeLargerThanBuffer d rest.length) ⟨false, [], none⟩) ∧
      (∀ (p : List Nat) d a s,
        depacketize ⟨false, [], none⟩ p
          = .err (.StapASizeLargerThanBuffer d a) s → a < d)) :=
  ⟨⟨by decide, by decide⟩,
    C4_stapa_unpacking ⟨false, [], none⟩ [[7], [8, 9]] (by decide) (by decide)⟩

end H264

namespace H264

/-- C5 counterexample: the claim quantifies over every NAL unit of type
1–23 with `len(u) ≤ mtu`, but (i) type 9 lies in 1–23 and is dropped by the
payloader, producing no fragment at all; (ii) a 1-byte unit round-trips
through `payload` but `depacketize` rejects it with `ShortPacket` instead
of emitting `prefix ++ u`; (iii) a unit containing an interior start code
is split rather than emitted verbatim. -/
theorem C5_counterexample :
    payload 3 [9, 1, 2] = .ok [] ∧
    (payload 3 [65] = .ok [[65]] ∧
      depacketize ⟨false, [], none⟩ [65]
        = .err .ErrShortPacket ⟨false, [], none⟩) ∧
    payload 5 [65, 0, 0, 1, 66] = .ok [[66]] := by
  refine ⟨?_, ⟨?_, rfl⟩, ?_⟩
  · have h9 : (9 : Nat) &&& 31 = 9 := by decide
    simp [payload, next_ind, nextIndAux, emit, NALU_TYPE_BITMASK,
      NALU_REF_IDC_BITMASK, h9]
  · simp [payload, next_ind, nextIndAux, emit, NALU_TYPE_BITMASK,
      NALU_REF_IDC_BITMASK]
    decide
  · simp [payload, payloadLoop, next_ind, nextIndAux, emit, NALU_TYPE_BITMASK,
      NALU_REF_IDC_BITMASK, FUA_HEADER_SIZE]
    decide

/-- C5 (amended): single-NAL round trip, for a NAL unit of type 1–23 other
than 9 and 12, containing no start code, with `3 ≤ len(u) ≤ mtu`:
`payload` yields exactly the fragment `u`, and depacketizing it yields
`prefix ++ u` where the prefix is `putU32 (len u)` when `is_avc` and the
4-byte Annex-B start code otherwise. -/
theorem C5_single_nalu_roundtrip (x : H264Packet) (u : List Nat) (mtu : Nat)
    (h3 : 3 ≤ u.length) (hmtu : u.length ≤ mtu)
    (hsc : next_ind u 0 = none)
    (ht1 : 1 ≤ u.headD 0 &&& 31) (ht23 : u.headD 0 &&& 31 ≤ 23)
    (h9 : u.headD 0 &&& 31 ≠ 9) (h12 : u.headD 0 &&& 31 ≠ 12) :
    payload mtu u = .ok [u] ∧
    depacketize x u = .ok { x with payload :=
      (if x.is_avc then putU32 u.length else ANNEXB_NALUSTART_CODE) ++ u } := by
  have hne : u ≠ [] := by
    intro h
    rw [h] at h3
    simp at h3
  constructor
  · rw [payload_no_start mtu u hne (by omega) hsc]
    rw [emit]
    have he : u.isEmpty = false := by
      cases u
      · exact absurd rfl hne
      · rfl
    simp only [he, Bool.false_eq_true, if_false, NALU_TYPE_BITMASK,
      NALU_REF_IDC_BITMASK]
    rw [if_neg (by rintro (h | h) <;> [exact h9 h; exact h12 h]),
      if_pos hmtu]
  · exact depacketize_single_nalu x u (by omega) ht1 ht23

/-- C5 witness: the single-NAL round trip at `u = [0x41, 7, 8]`, `mtu = 5`,
in AVCC mode. -/
theorem C5_single_nalu_roundtrip_witness :
    (3 ≤ [0x41, 7, 8].length ∧ [0x41, 7, 8].length ≤ 5 ∧
      next_ind [0x41, 7, 8] 0 = none ∧
      1 ≤ [0x41, 7, 8].headD 0 &&& 31 ∧ [0x41, 7, 8].headD 0 &&& 31 ≤ 23 ∧
      [0x41, 7, 8].headD 0 &&& 31 ≠ 9 ∧ [0x41, 7, 8].headD 0 &&& 31 ≠ 12) ∧
    (payload 5 [0x41, 7, 8] = .ok [[0x41, 7, 8]] ∧
      depacketize ⟨true, [], none⟩ [0x41, 7, 8] =
        .ok { (⟨true, [], none⟩ : H264Packet) with payload :=
          (if (⟨true, [], none⟩ : H264Packet).is_avc
            then putU32 [0x41, 7, 8].length
            else ANNEXB_NALUSTART_CODE) ++ [0x41, 7, 8] }) :=
  ⟨⟨by decide, by decide, rfl, by decide, by decide, by decide, by decide⟩,
    C5_single_nalu_roundtrip ⟨true, [], none⟩ [0x41, 7, 8] 5
      (by decide) (by decide) rfl (by decide) (by decide)
      (by decide) (by decide)⟩

/-- C6: `depacketize` returns `ShortPacket` exactly on payloads of length
≤ 2; in particular the duplicate check inside the FU-A branch can never
fire, and no longer payload ever produces `ShortPacket`. -/
theorem C6_shortpacket_iff (x : H264Packet) (p : List Nat) :
    (∃ s, depacketize x p = .err .ErrShortPacket s) ↔ p.length ≤ 2 := by
  constructor
  · rintro ⟨s, h⟩
    by_contra hgt
    rw [depacketize_eq, if_neg hgt] at h
    by_cases h1 : 1 ≤ p.headD 0 &&& 31 ∧ p.headD 0 &&& 31 ≤ 23
    · rw [if_pos h1] at h
      exact absurd h (by simp)
    · rw [if_neg h1] at h
      by_cases h24 : p.headD 0 &&& 31 = 24
      · rw [if_pos h24] at h
        cases hs : stapaLoop x.is_avc p 1 [] with
        | done out => rw [hs] at h; exact absurd h (by simp)
        | errored e2 =>
          rw [hs] at h
          obtain ⟨d2, a2, he2, _⟩ := stapaLoop_error x.is_avc p
            p.length 1 [] e2 (by omega) hs
          injection h with he _
          rw [he2] at he
          exact absurd he.symm (by simp)
        | panicked => rw [hs] at h; exact absurd h (by simp)
      · rw [if_neg h24] at h
        by_cases h28 : p.headD 0 &&& 31 = 28
        · rw [if_pos h28] at h
          rw [if_neg (by omega)] at h
          by_cases hE : p.getD 1 0 &&& 64 ≠ 0
          · rw [if_pos hE] at h; exact absurd h (by simp)
          · rw [if_neg hE] at h; exact absurd h (by simp)
        · rw [if_neg h28] at h
          injection h with he _
          exact absurd he.symm (by simp)
  · intro h
    rw [depacketize_eq, if_pos h]
    exact ⟨x, rfl⟩

/-- Partition-head classification as the claim words it: `false` below two
bytes; for the FU-A (28) and FU-B (29) types, the Start bit of byte 1;
`true` for every other type. -/
def partitionHeadSpec (p : List Nat) : Bool :=
  if p.length < 2 then false
  else if p.headD 0 &&& 31 = 28 ∨ p.headD 0 &&& 31 = 29 then
    p.getD 1 0 &&& 128 ≠ 0
  else true

/-- C7: `is_partition_head` agrees with the claim's case analysis on every
transport payload. -/
theorem C7_partition_head (p : List Nat) :
    is_partition_head p = partitionHeadSpec p := rfl

/-- C8: error atomicity — whenever `depacketize` returns an error, the
returned instance state has the `fua_buffer` accumulator and the `payload`
field it had before the call. -/
theorem C8_error_atomicity (x : H264Packet) (p : List Nat) (e : Error)
    (s : H264Packet) (h : depacketize x p = .err e s) :
    s.fua_buffer = x.fua_buffer ∧ s.payload = x.payload := by
  rw [depacketize_err_state h]
  exact ⟨rfl, rfl⟩

/-- C8 witness: the `ShortPacket` error on `[0]` leaves the instance state
`⟨false, [7], some [5]⟩` untouched. -/
theorem C8_error_atomicity_witness :
    depacketize ⟨false, [7], some [5]⟩ [0]
      = .err .ErrShortPacket ⟨false, [7], some [5]⟩ ∧
    ((⟨false, [7], some [5]⟩ : H264Packet).fua_buffer
        = (⟨false, [7], some [5]⟩ : H264Packet).fua_buffer ∧
      (⟨false, [7], some [5]⟩ : H264Packet).payload
        = (⟨false, [7], some [5]⟩ : H264Packet).payload) :=
  ⟨rfl, C8_error_atomicity ⟨false, [7], some [5]⟩ [0] .ErrShortPacket
    ⟨false, [7], some [5]⟩ rfl⟩

/-- C9: the payloader never fails — `payload` returns `Ok` on every input,
and returns the empty fragment sequence on empty input or `mtu = 0`. -/
theorem C9_payloader_total (mtu : Nat) (p : List Nat) :
    payload mtu [] = .ok [] ∧ payload 0 p = .ok [] ∧
    ∃ out, payload mtu p = .ok out := by
  refine ⟨?_, ?_, payload_ok mtu p⟩
  · rw [payload]
    simp
  · rw [payload, if_pos (Or.inr rfl)]

/-- C10: a `depacketize` call whose payload type is a single NAL (1–23) or
STAP-A (24) leaves the `fua_buffer` accumulator unchanged, whether the
call succeeds or fails. -/
theorem C10_nonfua_keeps_buffer (x : H264Packet) (p : List Nat)
    (ht : (1 ≤ p.headD 0 &&& 31 ∧ p.headD 0 &&& 31 ≤ 23) ∨
      p.headD 0 &&& 31 = 24) (s : H264Packet) (e : Error) :
    (depacketize x p = .ok s → s.fua_buffer = x.fua_buffer) ∧
    (depacketize x p = .err e s → s.fua_buffer = x.fua_buffer) := by
  have h28 : p.headD 0 &&& 31 ≠ 28 := by
    rcases ht with ⟨h1, h2⟩ | h24 <;> omega
  exact ⟨fun h => depacketize_keeps_buffer h28 s (Or.inl h),
    fun h => depacketize_keeps_buffer h28 s (Or.inr ⟨e, h⟩)⟩

/-- C10 witness: a single-NAL call on `[0x41, 0, 0]` with an in-progress
accumulator `some [9]` keeps that accumulator. -/
theorem C10_nonfua_keeps_buffer_witness :
    ((1 ≤ [0x41, 0, 0].headD 0 &&& 31 ∧ [0x41, 0, 0].headD 0 &&& 31 ≤ 23) ∨
      [0x41, 0, 0].headD 0 &&& 31 = 24) ∧
    ((depacketize ⟨false, [], some [9]⟩ [0x41, 0, 0]
        = .ok ⟨false, [0, 0, 0, 1, 0x41, 0, 0], some [9]⟩ →
      (⟨false, [0, 0, 0, 1, 0x41, 0, 0], some [9]⟩ : H264Packet).fua_buffer
        = (⟨false, [], some [9]⟩ : H264Packet).fua_buffer) ∧
    (depacketize ⟨false, [], some [9]⟩ [0x41, 0, 0]
        = .err .ErrShortPacket ⟨false, [0, 0, 0, 1, 0x41, 0, 0], some [9]⟩ →
      (⟨false, [0, 0, 0, 1, 0x41, 0, 0], some [9]⟩ : H264Packet).fua_buffer
        = (⟨false, [], some [9]⟩ : H264Packet).fua_buffer)) :=
  ⟨by decide,
    C10_nonfua_keeps_buffer ⟨false, [], some [9]⟩ [0x41, 0, 0] (by decide)
      ⟨false, [0, 0, 0, 1, 0x41, 0, 0], some [9]⟩ .ErrShortPacket⟩

end H264
